import Mathlib

/-!
Shallow embedding of `src/proj3/turing_machine.py` (classes `Rule` and
`TuringMachine`, plus the sample constructor `create_binary_doubler_tm`),
together with theorems settling the specification claims about it.

Python conventions are translated as follows: a `raise ValueError(...)` site
becomes an `Except.error` carrying the error kind named by the spec's error
taxonomy for that site; Python `str` becomes `String`; Python `int` becomes
`Int`; the initially-`None` tape becomes `Option String`; the rule dictionary
`{rule.hash: rule for rule in rules}` becomes an association list built with
insert-or-overwrite (Python dict semantics); truthiness tests `not self.tape`
(true for both `None` and `""`) become `tapeFalsy`.
-/

namespace TM

/-- Error kinds, one per distinct `raise ValueError` site of the source,
named following the spec's error taxonomy (section 7). -/
inductive TMError where
  | InvalidSymbol
  | OutOfBounds
  | NotLoaded
  | UndefinedTransition
deriving DecidableEq, Repr

/-- Python class `Rule`: one transition-table row. The constructor validates
that `read_symbol`/`write_symbol` are single characters, so they are `Char`
here; `direction` is validated to be the character `'L'` or `'R'` and kept
as `Char` as in the source. -/
structure Rule where
  state : Int
  read_symbol : Char
  write_symbol : Char
  next_state : Int
  direction : Char
deriving DecidableEq, Repr

/-- `Rule.make_hash`: the rule-lookup key `f"{state}{read_symbol}"` — the
decimal rendering of the state followed by the one-character read symbol. -/
def Rule.make_hash (state : Int) (read_symbol : Char) : String :=
  state.repr ++ String.singleton read_symbol

/-- `Rule.hash` property: key of this rule. -/
def Rule.hash (r : Rule) : String :=
  Rule.make_hash r.state r.read_symbol

/-- Python dict insertion (used to model the dict comprehension building the
rule table): overwrite in place when the key exists, append otherwise. -/
def dictInsert (d : List (String × Rule)) (k : String) (v : Rule) :
    List (String × Rule) :=
  if d.any (fun p => p.1 == k) then
    d.map (fun p => if p.1 == k then (k, v) else p)
  else
    d ++ [(k, v)]

/-- Python dict lookup by key. -/
def dictFind (d : List (String × Rule)) (k : String) : Option Rule :=
  (d.find? (fun p => p.1 == k)).map (fun p => p.2)

/-- The dict comprehension `{rule.hash: rule for rule in rules}`. -/
def buildDict (rules : List Rule) : List (String × Rule) :=
  rules.foldl (fun d r => dictInsert d r.hash r) []

/-- Python class `TuringMachine`: its instance fields. -/
structure TuringMachine where
  head : Int
  tape : Option String
  current_state : Int
  input_symbols : String
  tape_symbols : String
  blank_symbol : Char
  halt_states : List Int
  rules : List (String × Rule)
deriving DecidableEq, Repr

/-- `TuringMachine.__init__`. -/
def TuringMachine.make (rules : List Rule) (input_symbols : String)
    (tape_symbols : String) (blank_symbol : Char) (start_state : Int)
    (halt_states : List Int) : TuringMachine :=
  { head := 0
    tape := none
    current_state := start_state
    input_symbols := input_symbols
    tape_symbols := tape_symbols
    blank_symbol := blank_symbol
    halt_states := halt_states
    rules := buildDict rules }

/-- Python truthiness test `not self.tape`: true when the tape is `None` or
the empty string. -/
def tapeFalsy : Option String → Bool
  | none => true
  | some s => decide (s = "")

/-- `TuringMachine.set_input`: validate every input symbol against
`input_symbols`, then (and only then) replace the tape. The source's loop
raises on the first invalid symbol, before the tape assignment, so an
invalid input leaves the machine unmodified. -/
def TuringMachine.set_input (m : TuringMachine) (input_string : String) :
    Except TMError TuringMachine :=
  if input_string.data.all (fun c => m.input_symbols.data.contains c) then
    .ok { m with tape := some input_string }
  else
    .error .InvalidSymbol

/-- `TuringMachine.read_tape`. The last branch indexes `self.tape[n]` with
`0 ≤ n ≤ len - 1` guaranteed by the two preceding guards; the `getD`
default is unreachable there. -/
def TuringMachine.read_tape (m : TuringMachine) : Except TMError Char :=
  let n := m.head
  if n < 0 then .error .OutOfBounds
  else if tapeFalsy m.tape then .error .NotLoaded
  else
    let t := m.tape.getD ""
    if n > (t.length : Int) - 1 then .ok m.blank_symbol
    else .ok (t.data.getD n.toNat m.blank_symbol)

/-- The tape update `self.tape[:n] + char + self.tape[n+1:]` (Python slices
clamp, exactly as `List.take`/`List.drop` do). -/
def writeString (t : String) (n : Nat) (char : Char) : String :=
  ⟨t.data.take n ++ char :: t.data.drop (n + 1)⟩

/-- `TuringMachine.write_tape`. Note the source checks the tape alphabet
first, then the head bound, then loadedness. -/
def TuringMachine.write_tape (m : TuringMachine) (char : Char) :
    Except TMError TuringMachine :=
  if !(m.tape_symbols.data.contains char) then .error .InvalidSymbol
  else if m.head < 0 then .error .OutOfBounds
  else if tapeFalsy m.tape then .error .NotLoaded
  else .ok { m with tape := some (writeString (m.tape.getD "") m.head.toNat char) }

/-- `TuringMachine.step`: `False` (paired with the unchanged machine) means
halted, `True` means one transition was executed. -/
def TuringMachine.step (m : TuringMachine) : Except TMError (Bool × TuringMachine) :=
  if m.current_state ∈ m.halt_states then .ok (false, m)
  else
    match m.read_tape with
    | .error e => .error e
    | .ok current_symbol =>
      match dictFind m.rules (Rule.make_hash m.current_state current_symbol) with
      | none => .error .UndefinedTransition
      | some this_rule =>
        match m.write_tape this_rule.write_symbol with
        | .error e => .error e
        | .ok m1 =>
          .ok (true, { m1 with
            head := m1.head + (if this_rule.direction = 'R' then 1 else -1),
            current_state := this_rule.next_state })

/-- The loop body of `TuringMachine.run`, counting down the remaining budget
(`max_steps - num_steps`); the verbose/interactive parameters are pure I/O
and are omitted. -/
def TuringMachine.runAux (m : TuringMachine) : Nat → Except TMError (String × TuringMachine)
  | 0 => .ok ("invalid", m)
  | fuel + 1 =>
    match m.step with
    | .error e => .error e
    | .ok (result, m') =>
      if result then TuringMachine.runAux m' fuel
      else .ok ("valid", m')

/-- `TuringMachine.run`: returns the string `'valid'` if the machine halted
within `max_steps`, `'invalid'` otherwise (the source's default budget is
10000). -/
def TuringMachine.run (m : TuringMachine) (max_steps : Nat) :
    Except TMError (String × TuringMachine) :=
  m.runAux max_steps

/-- Python `s.strip(c)` for a one-character argument: remove every leading
and trailing occurrence of `c`. -/
def stripChar (s : String) (c : Char) : String :=
  ⟨((s.data.dropWhile (fun a => a == c)).reverse.dropWhile (fun a => a == c)).reverse⟩

/-- `TuringMachine.get_tape_contents` (the `isinstance(self.tape, str)` test
is always true whenever the tape is a loaded string, so only the truthiness
test remains). -/
def TuringMachine.get_tape_contents (m : TuringMachine) (strip : Bool) :
    Except TMError String :=
  if tapeFalsy m.tape then .error .NotLoaded
  else if strip then .ok (stripChar (m.tape.getD "") m.blank_symbol)
  else .ok (m.tape.getD "")

/-- `create_binary_doubler_tm`: the three-rule sample machine. -/
def create_binary_doubler_tm : TuringMachine :=
  TuringMachine.make
    [ { state := 1, read_symbol := '1', write_symbol := '1', next_state := 1, direction := 'R' },
      { state := 1, read_symbol := '0', write_symbol := '0', next_state := 1, direction := 'R' },
      { state := 1, read_symbol := ' ', write_symbol := '0', next_state := 2, direction := 'R' } ]
    "10" "10 " ' ' 1 [2]

/-! ## Helper lemmas about the tape primitives -/

/-- Facts recoverable from a successful read: the head is not negative and
the tape is loaded and non-empty. -/
theorem read_tape_ok_facts (m : TuringMachine) (c : Char)
    (h : m.read_tape = .ok c) :
    ¬ m.head < 0 ∧ tapeFalsy m.tape = false := by
  by_cases h0 : m.head < 0
  · simp [TuringMachine.read_tape, h0] at h
  · by_cases h1 : tapeFalsy m.tape
    · simp [TuringMachine.read_tape, h0, h1] at h
    · exact ⟨h0, by simpa using h1⟩

/-- Successful write: with a valid tape symbol, a non-negative head and a
loaded tape, `write_tape` splices the character in at the head position. -/
theorem write_tape_ok (m : TuringMachine) (char : Char)
    (hc : char ∈ m.tape_symbols.data)
    (hh : ¬ m.head < 0) (hf : tapeFalsy m.tape = false) :
    m.write_tape char =
      .ok { m with tape := some (writeString (m.tape.getD "") m.head.toNat char) } := by
  simp [TuringMachine.write_tape, hc, hh, hf]

/-! ## Claim C6 -/

/-- Claim C6: when the current state is a halt state, `step` performs no
action — it returns `false` ("halted", no step taken) paired with the very
same machine, so tape, head and current_state are all unchanged. -/
theorem step_in_halt_state (m : TuringMachine)
    (h : m.current_state ∈ m.halt_states) :
    m.step = .ok (false, m) := by
  simp [TuringMachine.step, h]

/-- Witness for C6: the binary doubler forced into its halt state 2. -/
theorem step_in_halt_state_witness :
    ({ create_binary_doubler_tm with current_state := 2 } : TuringMachine).step
      = .ok (false, { create_binary_doubler_tm with current_state := 2 }) :=
  step_in_halt_state _ (by decide)

/-! ## Claim C4 -/

/-- Claim C4: reading with the head at or beyond the materialized tape
length returns the blank symbol and never fails, for any loaded machine. -/
theorem read_tape_beyond_end (m : TuringMachine) (t : String)
    (ht : m.tape = some t) (hne : t ≠ "")
    (hh : (t.length : Int) ≤ m.head) :
    m.read_tape = .ok m.blank_symbol := by
  have h0 : ¬ m.head < 0 := by
    have hnn : (0 : Int) ≤ (t.length : Int) := Int.natCast_nonneg _
    omega
  have hgt : m.head > (t.length : Int) - 1 := by omega
  simp [TuringMachine.read_tape, ht, h0, tapeFalsy, hne, hgt]

/-- Witness for C4: the binary doubler loaded with "101" and its head moved
to position 7 reads the blank symbol. -/
theorem read_tape_beyond_end_witness :
    ({ create_binary_doubler_tm with tape := some "101", head := 7 } : TuringMachine).read_tape
      = .ok ({ create_binary_doubler_tm with tape := some "101", head := 7 } : TuringMachine).blank_symbol :=
  read_tape_beyond_end _ "101" rfl (by decide) (by decide)

/-! ## Claim C5 -/

/-- Claim C5: loading an input containing a symbol outside the input
alphabet fails with `InvalidSymbol` and never yields an updated machine:
the validation loop runs before the tape assignment, so there is no
partial load and the prior machine state is untouched. -/
theorem set_input_invalid_symbol (m : TuringMachine) (s : String) (c : Char)
    (hc : c ∈ s.data) (hout : c ∉ m.input_symbols.data) :
    m.set_input s = .error TMError.InvalidSymbol ∧
      ∀ m', m.set_input s ≠ .ok m' := by
  have hP : ¬ ∀ x ∈ s.data, x ∈ m.input_symbols.data := fun hP => hout (hP c hc)
  constructor
  · simp [TuringMachine.set_input]
    exact ⟨c, hc, hout⟩
  · intro m'
    simp [TuringMachine.set_input, hP]

/-- Witness for C5: loading "102" into the binary doubler (alphabet "10")
fails with `InvalidSymbol`. -/
theorem set_input_invalid_symbol_witness :
    create_binary_doubler_tm.set_input "102" = .error TMError.InvalidSymbol ∧
      ∀ m', create_binary_doubler_tm.set_input "102" ≠ .ok m' :=
  set_input_invalid_symbol create_binary_doubler_tm "102" '2' (by decide) (by decide)

/-! ## Claim C3 -/

/-- Counterexample to claim C3: `set_input` does not reset `head` (nor
`current_state`). Loading "101" into the binary doubler, taking one step
(head becomes 1), then loading "101" again leaves the head at 1, not 0. -/
theorem set_input_does_not_reset_head :
    (do
      let m1 ← create_binary_doubler_tm.set_input "101"
      let s ← m1.step
      let m3 ← s.2.set_input "101"
      pure m3.head : Except TMError Int) = .ok 1 ∧ (1 : Int) ≠ 0 :=
  ⟨rfl, by decide⟩

/-- Amended claim C3: for every machine and every input string all of whose
symbols are in the input alphabet, `set_input` replaces the tape with the
input and leaves every other field — in particular `head` and
`current_state` — unchanged. Consequently `head = 0` and
`current_state = start_state` hold after loading a freshly constructed
machine, but not in general after the machine has been run. -/
theorem set_input_valid (m : TuringMachine) (s : String)
    (h : ∀ c ∈ s.data, c ∈ m.input_symbols.data) :
    m.set_input s = .ok { m with tape := some s } := by
  simp [TuringMachine.set_input]
  exact h

/-- Witness for the amended C3: loading "101" into the (fresh) binary
doubler replaces the tape and keeps all other fields. -/
theorem set_input_valid_witness :
    create_binary_doubler_tm.set_input "101"
      = .ok { create_binary_doubler_tm with tape := some "101" } :=
  set_input_valid create_binary_doubler_tm "101" (by decide)

/-! ## Claim C8 -/

/-- Claim C8: loading "101" into the three-rule binary doubler and running
it with the source's default budget of 10000 makes `run` report the
halting verdict and leaves tape contents "1010". -/
theorem binary_doubler_101_runs_to_1010 :
    (do
      let m1 ← create_binary_doubler_tm.set_input "101"
      let r ← m1.run 10000
      let contents ← r.2.get_tape_contents true
      pure (r.1, contents) : Except TMError (String × String)) = .ok ("valid", "1010") := rfl

/-! ## Claim C7 -/

/-- Counterexample to claim C7: on a freshly constructed machine, a `write`
of a symbol outside the tape alphabet fails with `InvalidSymbol` — not
`NotLoaded` — because the alphabet check precedes the loaded check. -/
theorem write_before_load_invalid_symbol :
    create_binary_doubler_tm.write_tape 'z' = .error TMError.InvalidSymbol ∧
      TMError.InvalidSymbol ≠ TMError.NotLoaded :=
  ⟨rfl, by decide⟩

/-- Amended claim C7: on a freshly constructed machine (no load yet),
`read` and `tape_contents` always fail with `NotLoaded`; `write` fails with
`NotLoaded` for symbols inside the tape alphabet, and with `InvalidSymbol`
for symbols outside it (the alphabet check comes first). -/
theorem fresh_machine_tape_ops_fail (rules : List Rule) (i t : String)
    (b : Char) (st : Int) (hs : List Int) :
    (TuringMachine.make rules i t b st hs).read_tape = .error TMError.NotLoaded ∧
    (TuringMachine.make rules i t b st hs).get_tape_contents true = .error TMError.NotLoaded ∧
    (TuringMachine.make rules i t b st hs).get_tape_contents false = .error TMError.NotLoaded ∧
    (∀ c, c ∈ t.data →
      (TuringMachine.make rules i t b st hs).write_tape c = .error TMError.NotLoaded) ∧
    (∀ c, c ∉ t.data →
      (TuringMachine.make rules i t b st hs).write_tape c = .error TMError.InvalidSymbol) := by
  refine ⟨rfl, rfl, rfl, ?_, ?_⟩
  · intro c hcm
    simp [TuringMachine.make, TuringMachine.write_tape, tapeFalsy, hcm]
  · intro c hcm
    simp [TuringMachine.make, TuringMachine.write_tape, tapeFalsy, hcm]

/-- Witness for the amended C7 at the binary doubler's construction
parameters, with the in-alphabet symbol '0' and out-of-alphabet 'z'. -/
theorem fresh_machine_tape_ops_fail_witness :
    create_binary_doubler_tm.read_tape = .error TMError.NotLoaded ∧
    create_binary_doubler_tm.get_tape_contents true = .error TMError.NotLoaded ∧
    create_binary_doubler_tm.write_tape '0' = .error TMError.NotLoaded ∧
    create_binary_doubler_tm.write_tape 'z' = .error TMError.InvalidSymbol := by
  obtain ⟨h1, h2, h3, h4, h5⟩ := fresh_machine_tape_ops_fail
    [ { state := 1, read_symbol := '1', write_symbol := '1', next_state := 1, direction := 'R' },
      { state := 1, read_symbol := '0', write_symbol := '0', next_state := 1, direction := 'R' },
      { state := 1, read_symbol := ' ', write_symbol := '0', next_state := 2, direction := 'R' } ]
    "10" "10 " ' ' 1 [2]
  exact ⟨h1, h2, h4 '0' (by decide), h5 'z' (by decide)⟩

/-! ## Claim C9 -/

/-- Claim C9: loading the empty string into a fresh machine succeeds (the
alphabet check is vacuous), yet afterwards `read`, `write` (of any tape
symbol) and `tape_contents` still fail with `NotLoaded`, and in fact every
one of these operations behaves exactly as on the never-loaded machine:
the empty-loaded machine is observationally indistinguishable from it. -/
theorem empty_load_indistinguishable (rules : List Rule) (i t : String)
    (b : Char) (st : Int) (hs : List Int) :
    (TuringMachine.make rules i t b st hs).set_input ""
        = .ok { TuringMachine.make rules i t b st hs with tape := some "" } ∧
    ({ TuringMachine.make rules i t b st hs with tape := some "" } : TuringMachine).read_tape
        = .error TMError.NotLoaded ∧
    ({ TuringMachine.make rules i t b st hs with tape := some "" } : TuringMachine).get_tape_contents true
        = .error TMError.NotLoaded ∧
    ({ TuringMachine.make rules i t b st hs with tape := some "" } : TuringMachine).get_tape_contents false
        = .error TMError.NotLoaded ∧
    (∀ c, c ∈ t.data →
      ({ TuringMachine.make rules i t b st hs with tape := some "" } : TuringMachine).write_tape c
        = .error TMError.NotLoaded) ∧
    ({ TuringMachine.make rules i t b st hs with tape := some "" } : TuringMachine).read_tape
        = (TuringMachine.make rules i t b st hs).read_tape ∧
    (∀ c, ({ TuringMachine.make rules i t b st hs with tape := some "" } : TuringMachine).write_tape c
        = (TuringMachine.make rules i t b st hs).write_tape c) ∧
    (∀ strip, ({ TuringMachine.make rules i t b st hs with tape := some "" } : TuringMachine).get_tape_contents strip
        = (TuringMachine.make rules i t b st hs).get_tape_contents strip) := by
  refine ⟨rfl, rfl, rfl, rfl, ?_, rfl, ?_, ?_⟩
  · intro c hcm
    simp [TuringMachine.make, TuringMachine.write_tape, tapeFalsy, hcm]
  · intro c
    simp [TuringMachine.make, TuringMachine.write_tape, tapeFalsy]
  · intro strip
    cases strip <;> rfl

/-- Witness for C9 at the binary doubler's construction parameters. -/
theorem empty_load_indistinguishable_witness :
    create_binary_doubler_tm.set_input ""
        = .ok { create_binary_doubler_tm with tape := some "" } ∧
    ({ create_binary_doubler_tm with tape := some "" } : TuringMachine).read_tape
        = .error TMError.NotLoaded ∧
    ({ create_binary_doubler_tm with tape := some "" } : TuringMachine).write_tape '0'
        = .error TMError.NotLoaded ∧
    ({ create_binary_doubler_tm with tape := some "" } : TuringMachine).get_tape_contents true
        = .error TMError.NotLoaded := by
  obtain ⟨h1, h2, h3, h4, h5, h6, h7, h8⟩ := empty_load_indistinguishable
    [ { state := 1, read_symbol := '1', write_symbol := '1', next_state := 1, direction := 'R' },
      { state := 1, read_symbol := '0', write_symbol := '0', next_state := 1, direction := 'R' },
      { state := 1, read_symbol := ' ', write_symbol := '0', next_state := 2, direction := 'R' } ]
    "10" "10 " ' ' 1 [2]
  exact ⟨h1, h2, h5 '0' (by decide), h3⟩

/-! ## Claim C1 -/

/-- Claim C1: for a machine not in a halt state whose read succeeds with
symbol `c`: if no rule is keyed by (current_state, c) the step fails with
`UndefinedTransition` (a distinct fatal error, not a halt); if such a rule
exists (and its write symbol is in the tape alphabet, as every well-formed
machine guarantees), the step writes the rule's write symbol at the head,
moves the head right (+1) when the rule's direction is 'R' and left (-1)
when it is 'L', sets `current_state` to the rule's next state, and returns
`true` ("stepped"). -/
theorem step_transition (m : TuringMachine) (c : Char)
    (h1 : m.current_state ∉ m.halt_states)
    (h2 : m.read_tape = .ok c) :
    (dictFind m.rules (Rule.make_hash m.current_state c) = none →
      m.step = .error TMError.UndefinedTransition) ∧
    (∀ r, dictFind m.rules (Rule.make_hash m.current_state c) = some r →
      r.write_symbol ∈ m.tape_symbols.data →
        (r.direction = 'R' →
          m.step = .ok (true, { m with
            tape := some (writeString (m.tape.getD "") m.head.toNat r.write_symbol),
            head := m.head + 1,
            current_state := r.next_state })) ∧
        (r.direction = 'L' →
          m.step = .ok (true, { m with
            tape := some (writeString (m.tape.getD "") m.head.toNat r.write_symbol),
            head := m.head - 1,
            current_state := r.next_state }))) := by
  obtain ⟨hh, hf⟩ := read_tape_ok_facts m c h2
  constructor
  · intro hnone
    simp [TuringMachine.step, h1, h2, hnone]
  · intro r hsome hw
    have hwrite := write_tape_ok m r.write_symbol hw hh hf
    constructor
    · intro hdir
      simp [TuringMachine.step, h1, h2, hsome, hwrite, hdir]
    · intro hdir
      have hne : ¬ r.direction = 'R' := by
        rw [hdir]; decide
      simp [TuringMachine.step, h1, h2, hsome, hwrite, hne]
      rfl

/-- Witness for C1: the binary doubler loaded with "101" in state 1 reads
'1', finds the rule keyed "11", and steps to head 1 with the tape
unchanged ("101" with '1' rewritten at position 0). -/
theorem step_transition_witness :
    ({ create_binary_doubler_tm with tape := some "101" } : TuringMachine).step
      = .ok (true, { create_binary_doubler_tm with
          tape := some (writeString "101" 0 '1'),
          head := (0 : Int) + 1,
          current_state := 1 }) := by
  have h := (step_transition
      ({ create_binary_doubler_tm with tape := some "101" } : TuringMachine) '1'
      (by decide) rfl).2
      { state := 1, read_symbol := '1', write_symbol := '1', next_state := 1, direction := 'R' }
      rfl (by decide)
  exact h.1 rfl

/-! ## Claim C2 -/

/-- Composition of one more `step()` call after a previous loop-iteration
result: errors and halts pass through unchanged, a "stepped" result is
stepped again from the updated machine (proof infrastructure for the `run`
loop analysis). -/
def afterStep : Except TMError (Bool × TuringMachine) →
    Except TMError (Bool × TuringMachine)
  | .error e => .error e
  | .ok (_, m') => m'.step

/-- Results of the successive `step()` calls made by the `run` loop:
`stepSeq m k` is the result of the (k+1)-th call. Errors absorb (the loop
stops there), and halting absorbs as well — which agrees with the code,
since a halted `step` leaves the machine unchanged and a further `step`
reports halted again. -/
def stepSeq (m : TuringMachine) : Nat → Except TMError (Bool × TuringMachine)
  | 0 => m.step
  | k + 1 => afterStep (stepSeq m k)

/-- Unfolding `stepSeq` from the front, "stepped" case. -/
theorem stepSeq_succ_ok (m m1 : TuringMachine) (b : Bool)
    (h : m.step = .ok (b, m1)) :
    ∀ k, stepSeq m (k + 1) = stepSeq m1 k := by
  intro k
  induction k with
  | zero => simp [stepSeq, afterStep, h]
  | succ k ih =>
    show afterStep (stepSeq m (k + 1)) = _
    rw [ih]
    rfl

/-- Once a `step` call errors, every later position of the sequence holds
that error. -/
theorem stepSeq_error (m : TuringMachine) (e : TMError)
    (h : m.step = .error e) : ∀ k, stepSeq m k = .error e := by
  intro k
  induction k with
  | zero => exact h
  | succ k ih =>
    show afterStep (stepSeq m k) = _
    rw [ih]
    rfl

/-- A `step` that reports halted returns the machine unchanged. -/
theorem step_false_eq (m m' : TuringMachine)
    (h : m.step = .ok (false, m')) : m' = m := by
  by_cases hh : m.current_state ∈ m.halt_states
  · simp [TuringMachine.step, hh] at h
    exact h.symm
  · exfalso
    cases hr : m.read_tape with
    | error e => simp [TuringMachine.step, hh, hr] at h
    | ok c =>
      cases hd : dictFind m.rules (Rule.make_hash m.current_state c) with
      | none => simp [TuringMachine.step, hh, hr, hd] at h
      | some r =>
        cases hw : m.write_tape r.write_symbol with
        | error e => simp [TuringMachine.step, hh, hr, hd, hw] at h
        | ok m1 => simp [TuringMachine.step, hh, hr, hd, hw] at h

/-- Once a `step` call reports halted, every later position of the sequence
reports halted with the same machine. -/
theorem stepSeq_false (m : TuringMachine)
    (h : m.step = .ok (false, m)) : ∀ k, stepSeq m k = .ok (false, m) := by
  intro k
  induction k with
  | zero => exact h
  | succ k ih =>
    show afterStep (stepSeq m k) = _
    rw [ih]
    exact h

/-- The loop returns the success verdict exactly when some step within the
budget reports halted. -/
theorem runAux_valid_iff (n : Nat) : ∀ m m' : TuringMachine,
    m.runAux n = .ok ("valid", m') ↔
      ∃ k, k < n ∧ stepSeq m k = .ok (false, m') := by
  induction n with
  | zero =>
    intro m m'
    constructor
    · intro h
      simp [TuringMachine.runAux] at h
    · rintro ⟨k, hk, _⟩
      omega
  | succ n ih =>
    intro m m'
    cases hs : m.step with
    | error e =>
      simp only [TuringMachine.runAux, hs]
      constructor
      · intro h
        simp at h
      · rintro ⟨k, hk, hsk⟩
        rw [stepSeq_error m e hs k] at hsk
        simp at hsk
    | ok p =>
      obtain ⟨b, m1⟩ := p
      cases b with
      | true =>
        simp only [TuringMachine.runAux, hs, if_pos]
        rw [ih m1 m']
        constructor
        · rintro ⟨k, hk, hsk⟩
          refine ⟨k + 1, by omega, ?_⟩
          rw [stepSeq_succ_ok m m1 true hs k]
          exact hsk
        · rintro ⟨k, hk, hsk⟩
          cases k with
          | zero =>
            rw [show stepSeq m 0 = m.step from rfl, hs] at hsk
            simp at hsk
          | succ k =>
            rw [stepSeq_succ_ok m m1 true hs k] at hsk
            exact ⟨k, by omega, hsk⟩
      | false =>
        have hm1 : m1 = m := step_false_eq m m1 hs
        rw [hm1] at hs
        simp only [TuringMachine.runAux, hs]
        constructor
        · intro h
          simp only [if_neg (by decide : ¬ false = true)] at h
          have hm' : m' = m := by
            simpa using h.symm
          rw [hm']
          exact ⟨0, by omega, by rw [show stepSeq m 0 = m.step from rfl, hs]⟩
        · rintro ⟨k, hk, hsk⟩
          rw [stepSeq_false m hs k] at hsk
          have hm' : m' = m := by
            simpa using hsk.symm
          rw [hm']
          simp

/-- The loop propagates a step error exactly when some step within the
budget errors; the error is never turned into a verdict. -/
theorem runAux_error_iff (n : Nat) : ∀ (m : TuringMachine) (e : TMError),
    m.runAux n = .error e ↔
      ∃ k, k < n ∧ stepSeq m k = .error e := by
  induction n with
  | zero =>
    intro m e
    constructor
    · intro h
      simp [TuringMachine.runAux] at h
    · rintro ⟨k, hk, _⟩
      omega
  | succ n ih =>
    intro m e
    cases hs : m.step with
    | error e' =>
      simp only [TuringMachine.runAux, hs]
      constructor
      · intro h
        have he : e' = e := by simpa using h
        exact ⟨0, by omega, by rw [show stepSeq m 0 = m.step from rfl, hs, he]⟩
      · rintro ⟨k, hk, hsk⟩
        rw [stepSeq_error m e' hs k] at hsk
        have he : e' = e := by simpa using hsk
        rw [he]
    | ok p =>
      obtain ⟨b, m1⟩ := p
      cases b with
      | true =>
        simp only [TuringMachine.runAux, hs, if_pos]
        rw [ih m1 e]
        constructor
        · rintro ⟨k, hk, hsk⟩
          refine ⟨k + 1, by omega, ?_⟩
          rw [stepSeq_succ_ok m m1 true hs k]
          exact hsk
        · rintro ⟨k, hk, hsk⟩
          cases k with
          | zero =>
            rw [show stepSeq m 0 = m.step from rfl, hs] at hsk
            simp at hsk
          | succ k =>
            rw [stepSeq_succ_ok m m1 true hs k] at hsk
            exact ⟨k, by omega, hsk⟩
      | false =>
        have hm1 : m1 = m := step_false_eq m m1 hs
        rw [hm1] at hs
        simp only [TuringMachine.runAux, hs]
        constructor
        · intro h
          simp at h
        · rintro ⟨k, hk, hsk⟩
          rw [stepSeq_false m hs k] at hsk
          simp at hsk

/-- The loop returns the exhausted verdict exactly when every one of the
`max_steps` budgeted step calls executed a transition without halting. -/
theorem runAux_invalid_iff (n : Nat) : ∀ m : TuringMachine,
    (∃ m', m.runAux n = .ok ("invalid", m')) ↔
      ∀ k, k < n → ∃ m'', stepSeq m k = .ok (true, m'') := by
  induction n with
  | zero =>
    intro m
    constructor
    · intro _ k hk
      omega
    · intro _
      exact ⟨m, rfl⟩
  | succ n ih =>
    intro m
    cases hs : m.step with
    | error e =>
      simp only [TuringMachine.runAux, hs]
      constructor
      · rintro ⟨m', h⟩
        simp at h
      · intro hall
        obtain ⟨m'', h⟩ := hall 0 (by omega)
        rw [show stepSeq m 0 = m.step from rfl, hs] at h
        simp at h
    | ok p =>
      obtain ⟨b, m1⟩ := p
      cases b with
      | true =>
        simp only [TuringMachine.runAux, hs, if_pos]
        constructor
        · intro hex k hk
          cases k with
          | zero =>
            exact ⟨m1, by rw [show stepSeq m 0 = m.step from rfl, hs]⟩
          | succ k =>
            rw [stepSeq_succ_ok m m1 true hs k]
            exact ((ih m1).mp hex) k (by omega)
        · intro hall
          refine (ih m1).mpr ?_
          intro k hk
          rw [← stepSeq_succ_ok m m1 true hs k]
          exact hall (k + 1) (by omega)
      | false =>
        have hm1 : m1 = m := step_false_eq m m1 hs
        rw [hm1] at hs
        simp only [TuringMachine.runAux, hs]
        constructor
        · rintro ⟨m', h⟩
          simp only [if_neg (by decide : ¬ false = true)] at h
          simp at h
        · intro hall
          obtain ⟨m'', h⟩ := hall 0 (by omega)
          rw [show stepSeq m 0 = m.step from rfl, hs] at h
          simp at h

/-- Counterexample to claim C2 as stated: on success `run` does not return
the tape contents — it returns the success verdict string "valid". Running
the binary doubler on "101" returns "valid" while the tape contents are
"1010". -/
theorem run_returns_verdict_not_tape_contents :
    (do
      let m1 ← create_binary_doubler_tm.set_input "101"
      let r ← m1.run 10000
      pure r.1 : Except TMError String) = .ok "valid" ∧
    (do
      let m1 ← create_binary_doubler_tm.set_input "101"
      let r ← m1.run 10000
      r.2.get_tape_contents true : Except TMError String) = .ok "1010" ∧
    ("valid" : String) ≠ "1010" :=
  ⟨rfl, rfl, by decide⟩

/-- Amended claim C2: `run(max_steps)` yields one of three
caller-distinguishable outcomes. It returns the success verdict "valid"
exactly when some step call within the budget reports halted (tape
contents stay available on the returned machine, via `tape_contents`);
it propagates a step error (in particular `UndefinedTransition`) exactly
when some budgeted step call fails, so an error is never converted into a
verdict; and it returns the distinct exhausted verdict "invalid" exactly
when all `max_steps` budgeted step calls executed a transition without
halting. -/
theorem run_behavior (m : TuringMachine) (max_steps : Nat) :
    (∀ m', m.run max_steps = .ok ("valid", m') ↔
      ∃ k, k < max_steps ∧ stepSeq m k = .ok (false, m')) ∧
    (∀ e, m.run max_steps = .error e ↔
      ∃ k, k < max_steps ∧ stepSeq m k = .error e) ∧
    ((∃ m', m.run max_steps = .ok ("invalid", m')) ↔
      ∀ k, k < max_steps → ∃ m'', stepSeq m k = .ok (true, m'')) :=
  ⟨fun m' => runAux_valid_iff max_steps m m',
   fun e => runAux_error_iff max_steps m e,
   runAux_invalid_iff max_steps m⟩

/-- Witness for the amended C2: the doubler loaded with "101" halts within
the default budget (its 5th step call reports halted), so `run` returns
the success verdict with the final machine. -/
theorem run_behavior_witness :
    ({ create_binary_doubler_tm with tape := some "101" } : TuringMachine).run 10000
      = .ok ("valid",
          { create_binary_doubler_tm with tape := some "1010", head := 4, current_state := 2 }) :=
  ((run_behavior ({ create_binary_doubler_tm with tape := some "101" }) 10000).1
    ({ create_binary_doubler_tm with tape := some "1010", head := 4, current_state := 2 })).mpr
    ⟨4, by omega, by rfl⟩

/-! ## Claim C10

The rule-table key is `f"{state}{read_symbol}"`, i.e. the decimal rendering
of the integer state followed by the single read character. Injectivity of
that encoding needs injectivity of the decimal rendering, which we prove
from first principles about `Nat.toDigitsCore`. -/

/-- Numeric value of a list of decimal digit characters (most significant
first): a left inverse of the decimal rendering. -/
def digitsVal (l : List Char) : Nat :=
  l.foldl (fun a c => 10 * a + (c.toNat - 48)) 0

/-- Value of a decimal digit character. -/
theorem digitChar_val (k : Nat) (hk : k < 10) :
    (Nat.digitChar k).toNat - 48 = k := by
  interval_cases k <;> decide

/-- No digit character produced from a remainder below the base 16 cutoff
is the minus sign. -/
theorem digitChar_ne_minus (k : Nat) (hk : k < 16) : Nat.digitChar k ≠ '-' := by
  interval_cases k <;> decide

/-- The accumulator of `Nat.toDigitsCore` is simply appended to the digits
of the number. -/
theorem toDigitsCore_append (b : Nat) :
    ∀ (fuel n : Nat) (ds : List Char),
      Nat.toDigitsCore b fuel n ds = Nat.toDigitsCore b fuel n [] ++ ds := by
  intro fuel
  induction fuel with
  | zero =>
    intro n ds
    simp [Nat.toDigitsCore]
  | succ fuel ih =>
    intro n ds
    simp only [Nat.toDigitsCore]
    by_cases h0 : n / b = 0
    · simp [h0]
    · simp only [h0, if_false]
      rw [ih (n / b) (Nat.digitChar (n % b) :: ds), ih (n / b) [Nat.digitChar (n % b)]]
      simp

/-- Appending one digit multiplies the value by ten and adds the digit. -/
theorem digitsVal_append (l : List Char) (c : Char) :
    digitsVal (l ++ [c]) = 10 * digitsVal l + (c.toNat - 48) := by
  simp [digitsVal, List.foldl_append]

/-- With enough fuel, `digitsVal` recovers the number from its rendered
digits: the decimal rendering is invertible. -/
theorem toDigitsCore_val :
    ∀ fuel n : Nat, n < fuel →
      digitsVal (Nat.toDigitsCore 10 fuel n []) = n := by
  intro fuel
  induction fuel with
  | zero =>
    intro n h
    omega
  | succ fuel ih =>
    intro n h
    simp only [Nat.toDigitsCore]
    by_cases h0 : n / 10 = 0
    · simp only [h0, if_true]
      have hd := digitChar_val (n % 10) (Nat.mod_lt n (by omega))
      simp [digitsVal, hd]
      omega
    · simp only [h0, if_false]
      rw [toDigitsCore_append 10 fuel (n / 10) [Nat.digitChar (n % 10)],
        digitsVal_append, ih (n / 10) (by omega),
        digitChar_val (n % 10) (Nat.mod_lt n (by omega))]
      omega

/-- With enough fuel, the rendered digit list is nonempty. -/
theorem toDigitsCore_ne_nil (fuel n : Nat) (h : n < fuel) :
    Nat.toDigitsCore 10 fuel n [] ≠ [] := by
  cases fuel with
  | zero => omega
  | succ fuel =>
    simp only [Nat.toDigitsCore]
    by_cases h0 : n / 10 = 0
    · simp [h0]
    · simp only [h0, if_false]
      rw [toDigitsCore_append 10 fuel (n / 10) [Nat.digitChar (n % 10)]]
      simp

/-- The rendered base-10 digits of a natural number never contain a minus
sign. -/
theorem toDigitsCore_no_minus :
    ∀ (fuel n : Nat) (ds : List Char), '-' ∉ ds →
      '-' ∉ Nat.toDigitsCore 10 fuel n ds := by
  intro fuel
  induction fuel with
  | zero =>
    intro n ds hds
    simpa [Nat.toDigitsCore] using hds
  | succ fuel ih =>
    intro n ds hds
    have hcons : '-' ∉ Nat.digitChar (n % 10) :: ds := by
      simp only [List.mem_cons, not_or]
      exact ⟨fun hc => digitChar_ne_minus (n % 10) (by omega) hc.symm, hds⟩
    simp only [Nat.toDigitsCore]
    by_cases h0 : n / 10 = 0
    · simp only [h0, if_true]
      exact hcons
    · simp only [h0, if_false]
      exact ih (n / 10) (Nat.digitChar (n % 10) :: ds) hcons

/-- The decimal rendering of natural numbers is injective. -/
theorem natRepr_inj (a b : Nat) (h : Nat.repr a = Nat.repr b) : a = b := by
  have hd : Nat.toDigitsCore 10 (a + 1) a [] = Nat.toDigitsCore 10 (b + 1) b [] :=
    congrArg String.data h
  have ha := toDigitsCore_val (a + 1) a (by omega)
  have hb := toDigitsCore_val (b + 1) b (by omega)
  rw [hd] at ha
  omega

/-- The decimal rendering of a natural number contains no minus sign. -/
theorem natRepr_no_minus (n : Nat) : '-' ∉ (Nat.repr n).data := by
  simp only [Nat.repr, Nat.toDigits, List.asString]
  exact toDigitsCore_no_minus (n + 1) n [] (by simp)

/-- The decimal rendering of an integer is injective. -/
theorem intRepr_inj (a b : Int) (h : Int.repr a = Int.repr b) : a = b := by
  cases a with
  | ofNat m =>
    cases b with
    | ofNat k =>
      simp only [Int.repr] at h
      rw [natRepr_inj m k h]
    | negSucc k =>
      exfalso
      simp only [Int.repr] at h
      have hd : (Nat.repr m).data = '-' :: (Nat.repr (k + 1)).data := by
        have := congrArg String.data h
        simpa using this
      exact natRepr_no_minus m (by rw [hd]; exact List.mem_cons_self _ _)
  | negSucc m =>
    cases b with
    | ofNat k =>
      exfalso
      simp only [Int.repr] at h
      have hd : (Nat.repr k).data = '-' :: (Nat.repr (m + 1)).data := by
        have := congrArg String.data h.symm
        simpa using this
      exact natRepr_no_minus k (by rw [hd]; exact List.mem_cons_self _ _)
    | negSucc k =>
      simp only [Int.repr] at h
      have hd : (Nat.repr (m + 1)).data = (Nat.repr (k + 1)).data := by
        have := congrArg String.data h
        simpa using this
      have hmk := natRepr_inj (m + 1) (k + 1) (String.ext hd)
      have : m = k := by omega
      rw [this]

/-- Claim C10: the rule-table key encoding — decimal rendering of the state
concatenated with the one-character read symbol — is injective over integer
states and single characters: equal keys force equal states and equal read
symbols, so the rule table cannot conflate two distinct (state, symbol)
pairs, and the lookup `step` performs finds exactly the rule of the
current pair. -/
theorem make_hash_injective (s1 s2 : Int) (c1 c2 : Char)
    (h : Rule.make_hash s1 c1 = Rule.make_hash s2 c2) :
    s1 = s2 ∧ c1 = c2 := by
  have hd : (Int.repr s1).data ++ [c1] = (Int.repr s2).data ++ [c2] := by
    have := congrArg String.data h
    simpa [Rule.make_hash] using this
  have hlen : ([c1] : List Char).length = ([c2] : List Char).length := rfl
  obtain ⟨h1, h2⟩ := List.append_inj' hd hlen
  refine ⟨intRepr_inj s1 s2 (String.ext h1), ?_⟩
  simpa using h2

/-- Witness for C10: equal keys "123" force state 12 and symbol '3' on both
sides. -/
theorem make_hash_injective_witness : (12 : Int) = 12 ∧ '3' = '3' :=
  make_hash_injective 12 12 '3' '3' rfl

end TM
